import Mathlib

/-!
# CattyMail — verification of the spec against the source

Shallow embedding of the CattyMail disposable-email service (Go backend:
`internal/api` HTTP handler, `internal/redisstore` store, `internal/imapworker`
ingestor).  Strings are modelled as `List Char` (`Str`) so that every
definition evaluates by kernel reduction; Go standard-library string helpers
(`strings.TrimSpace`, `strings.ToLower`, `strings.Split`, `strings.Index`)
are reproduced on `Str`.  The Redis store is modelled as a map from keys to
values with absolute expiry times plus a map from keys to sorted-set entries;
pipelined transactions are single atomic state updates, and pub/sub delivery
is an explicit trace of `(channel, payload)` pairs.
-/

namespace CattyMail

/-- Strings of the modelled program. -/
abbrev Str := List Char

/-- ASCII whitespace, the fragment of `strings.TrimSpace`'s `unicode.IsSpace`
relevant to header and local-part handling. -/
def isSpaceChar (c : Char) : Bool :=
  c = ' ' || c = '\t' || c = '\n' || c = '\r'

/-- Go `strings.TrimSpace`. -/
def trimStr (cs : Str) : Str :=
  ((cs.dropWhile isSpaceChar).reverse.dropWhile isSpaceChar).reverse

/-- Lower-casing of a single ASCII character, as `strings.ToLower` does. -/
def toLowerChar (c : Char) : Char :=
  if 'A' ≤ c && c ≤ 'Z' then Char.ofNat (c.toNat + 32) else c

/-- Go `strings.ToLower`. -/
def toLowerStr (cs : Str) : Str := cs.map toLowerChar

/-- Go `strings.Split(s, sep)` for a one-character separator.
`splitOnChar c [] = [[]]`, matching `strings.Split("", "@") = [""]`. -/
def splitOnChar (sep : Char) : Str → List Str
  | [] => [[]]
  | c :: rest =>
    let r := splitOnChar sep rest
    if c = sep then [] :: r
    else
      match r with
      | [] => [[c]]
      | h :: t => (c :: h) :: t

/-- Index of the first occurrence of `c`, as Go `strings.Index` (callers only
use it under a `strings.Contains` guard, so the not-found value is irrelevant). -/
def idxOf (c : Char) : Str → Nat
  | [] => 0
  | x :: rest => if x = c then 0 else idxOf c rest + 1

/-! ## Custom-address validation (`internal/api`, `createCustomAddress`) -/

/-- The character class `[a-z0-9]` of the validation regexp. -/
def isLowerAlnum (c : Char) : Bool :=
  ('a' ≤ c && c ≤ 'z') || ('0' ≤ c && c ≤ '9')

/-- The character class `[a-z0-9._-]` of the validation regexp. -/
def isLocalTailChar (c : Char) : Bool :=
  isLowerAlnum c || c = '.' || c = '_' || c = '-'

/-- `regexp.MatchString("^[a-z0-9][a-z0-9._-]{2,30}$", local)` from
`createCustomAddress`: one leading alphanumeric character followed by
2 to 30 characters of the tail class. -/
def matchesLocalPattern : Str → Bool
  | [] => false
  | c :: rest =>
    isLowerAlnum c && rest.all isLocalTailChar &&
      decide (2 ≤ rest.length) && decide (rest.length ≤ 30)

/-- The reserved-word list of `createCustomAddress`. -/
def reservedWords : List Str :=
  ["admin".toList, "root".toList, "postmaster".toList, "support".toList,
   "noreply".toList, "abuse".toList, "mailer-daemon".toList]

/-- The local-part validation path of `createCustomAddress` (after the domain
check): normalize with `strings.ToLower(strings.TrimSpace(·))`, reject with
HTTP 400 when the regexp fails or the local equals a reserved word, otherwise
accept the normalized local. -/
def validateCustomLocal (rawLocal : Str) : Except Nat Str :=
  let l := toLowerStr (trimStr rawLocal)
  if matchesLocalPattern l = false then .error 400
  else if reservedWords.contains l then .error 400
  else .ok l

/-! ## Inbox query-parameter handling (`internal/api`, `getInbox`) -/

/-- `[0-9]` digits. -/
def isDigitChar (c : Char) : Bool := '0' ≤ c && c ≤ '9'

/-- Decimal value of a digit string. -/
def digitsVal (cs : Str) : Nat :=
  cs.foldl (fun a c => a * 10 + (c.toNat - '0'.toNat)) 0

/-- Go `strconv.Atoi` / `strconv.ParseInt(…, 10, 64)`: an optional sign
followed by at least one digit (64-bit overflow is not modelled; the handler
only compares against small bounds). -/
def parseGoInt (s : Str) : Option Int :=
  match s with
  | [] => none
  | '-' :: rest =>
    if rest ≠ [] && rest.all isDigitChar then some (-(digitsVal rest : Int)) else none
  | '+' :: rest =>
    if rest ≠ [] && rest.all isDigitChar then some ((digitsVal rest : Int)) else none
  | cs => if cs.all isDigitChar then some ((digitsVal cs : Int)) else none

/-- The `limit` computation of `getInbox`: start from the default 50; when the
query parameter is non-empty, parses, and lies in `(0, 100]`, use it —
otherwise keep 50.  No branch rejects the request. -/
def getInboxLimit (lq : Str) : Nat :=
  if lq = [] then 50
  else
    match parseGoInt lq with
    | some i => if 0 < i && i ≤ 100 then i.toNat else 50
    | none => 50

/-- The `before` computation of `getInbox`: 0 unless the query parameter
parses as an integer. -/
def getInboxBefore (bq : Str) : Int :=
  if bq = [] then 0
  else
    match parseGoInt bq with
    | some i => i
    | none => 0

/-! ## Data model (`internal/domain`) -/

/-- `domain.Message` (JSON-marshalled into `msg:{id}`).  `Date` is modelled as
epoch seconds (`msg.Date.Unix()` is the only reading the store performs). -/
structure Message where
  id : Str
  domain : Str
  localPart : Str
  originalTo : Str
  fromAddr : Str
  subject : Str
  date : Int
  text : Str
  html : Str
  imapUid : Nat
  imapFolder : Str
deriving DecidableEq, Repr

/-- `domain.Address`, the response of the address allocator.  `expiresAt` is
epoch seconds of `time.Now().Add(ttl)`. -/
structure Address where
  email : Str
  localPart : Str
  domain : Str
  expiresAt : Nat
deriving DecidableEq, Repr

/-! ## Redis store model (`internal/redisstore`) -/

/-- A stored Redis value.  `n` stands for a decimal-integer string (what
`Set(key, uid, 0)` writes and `.Uint64()` reads back); `m` for the JSON
marshalling of a message (what `SaveMessage` writes and `json.Unmarshal`
reads back). -/
inductive RVal
  | s (v : Str)
  | n (v : Nat)
  | m (v : Message)
deriving DecidableEq, Repr

/-- The store: plain keys with optional absolute expiry time, and sorted sets
(member/score pairs, members unique).  The TTL that `pipe.Expire` puts on the
inbox sorted set is not modelled — no claim reads an inbox key late enough
for it to matter, and it is refreshed on every insert. -/
@[ext]
structure RedisState where
  kv : Str → Option (RVal × Option Nat)
  zsets : Str → List (Str × Int)

/-- The store with no keys. -/
def emptyState : RedisState := ⟨fun _ => none, fun _ => []⟩

/-- Read a key at time `now`; an entry whose expiry has passed is gone
(Redis expiry semantics). -/
def getLive (st : RedisState) (now : Nat) (k : Str) : Option RVal :=
  match st.kv k with
  | none => none
  | some (v, none) => some v
  | some (v, some e) => if now < e then some v else none

/-- `SET key value [EX ttl]` with an absolute expiry time (`none` = persist). -/
def setKey (st : RedisState) (k : Str) (v : RVal) (e : Option Nat) : RedisState :=
  { st with kv := fun k2 => if k2 = k then some (v, e) else st.kv k2 }

/-- `ZADD key score member`: insert or update the member's score. -/
def zadd (st : RedisState) (k member : Str) (score : Int) : RedisState :=
  { st with zsets := fun k2 =>
      if k2 = k then (member, score) :: (st.zsets k).filter (fun p => decide (p.1 ≠ member))
      else st.zsets k2 }

/-- Key `msg:{id}` (`fmt.Sprintf("msg:%s", msg.ID)`). -/
def msgKey (id : Str) : Str := "msg:".toList ++ id

/-- Key `inbox:{domain}:{local}` — both the sorted-set key and the pub/sub
channel name. -/
def inboxKey (d l : Str) : Str := "inbox:".toList ++ d ++ ':' :: l

/-- Key `addr:{domain}:{local}`. -/
def addrKey (d l : Str) : Str := "addr:".toList ++ d ++ ':' :: l

/-- Key `imap:uid:{folder}:{uid}`. -/
def uidMarkKey (folder : Str) (uid : Nat) : Str :=
  "imap:uid:".toList ++ folder ++ ':' :: (Nat.repr uid).toList

/-- Key `imap:last_uid:{folder-argument}` — the worker passes
`IMAPUser + ":" + folder` as the argument. -/
def lastUidKey (userFolder : Str) : Str := "imap:last_uid:".toList ++ userFolder

/-- `Store.EnsureAddress`: unconditional `SET addr:{d}:{l} "1" EX ttl`
(creates or refreshes the reservation). -/
def EnsureAddress (ttl now : Nat) (d l : Str) (st : RedisState) : RedisState :=
  setKey st (addrKey d l) (RVal.s "1".toList) (some (now + ttl))

/-- `Store.IsUIDProcessed`: `EXISTS imap:uid:{folder}:{uid} > 0`. -/
def IsUIDProcessed (st : RedisState) (now : Nat) (folder : Str) (uid : Nat) : Bool :=
  (getLive st now (uidMarkKey folder uid)).isSome

/-- `Store.GetFolderLastUID`: missing key reads as 0 (`redis.Nil`); a value
that is not an integer is a read error (`none`), which aborts the folder. -/
def GetFolderLastUID (st : RedisState) (now : Nat) (userFolder : Str) : Option Nat :=
  match getLive st now (lastUidKey userFolder) with
  | none => some 0
  | some (RVal.n v) => some v
  | some _ => none

/-- `Store.SetFolderLastUID`: `SET imap:last_uid:{uf} uid` with no TTL. -/
def SetFolderLastUID (st : RedisState) (userFolder : Str) (uid : Nat) : RedisState :=
  setKey st (lastUidKey userFolder) (RVal.n uid) none

/-- `Store.SaveMessage`.  The pipelined transaction (record `SET`, inbox
`ZADD`+`EXPIRE`, dedup-marker `SET`) is one atomic update; `pipeOk` models
whether `pipe.Exec` succeeds.  The subsequent `Publish` has its error
discarded (`_ = … .Err()`): `pubOk` only decides whether the notification is
delivered.  Returns the new state, the delivered `(channel, payload)`
notifications, and the function's error result. -/
def SaveMessage (ttl now : Nat) (msg : Message) (pipeOk pubOk : Bool)
    (st : RedisState) : RedisState × List (Str × Str) × Except Unit Unit :=
  if pipeOk = false then (st, [], .error ())
  else
    let st1 := setKey st (msgKey msg.id) (RVal.m msg) (some (now + ttl))
    let st2 := zadd st1 (inboxKey msg.domain msg.localPart) msg.id msg.date
    let st3 :=
      if 0 < msg.imapUid && !msg.imapFolder.isEmpty
      then setKey st2 (uidMarkKey msg.imapFolder msg.imapUid) (RVal.s "1".toList)
             (some (now + ttl))
      else st2
    let pubs := if pubOk then [(inboxKey msg.domain msg.localPart, msg.id)] else []
    (st3, pubs, .ok ())

/-- `Store.Subscribe` subscribes to this pub/sub channel. -/
def subscribeChannel (d l : Str) : Str := inboxKey d l

/-- `Store.GetInbox`'s `ZREVRANGEBYSCORE inbox… (before -inf LIMIT 0 limit`:
order by score descending, keep scores strictly below `before` when
`before > 0` (no upper bound otherwise), truncate to `limit`. -/
def zrevSelect (entries : List (Str × Int)) (before : Int) (limit : Nat) :
    List (Str × Int) :=
  let sorted := entries.insertionSort (fun a b => b.2 ≤ a.2)
  let bounded :=
    if 0 < before then sorted.filter (fun p => decide (p.2 < before)) else sorted
  bounded.take limit

/-- Decode one `MGET` slot: a missing (nil/expired) record or a value that is
not a message marshalling contributes nothing. -/
def liveMsg (st : RedisState) (now : Nat) (id : Str) : Option Message :=
  match getLive st now (msgKey id) with
  | some (RVal.m m) => some m
  | _ => none

/-- `Store.GetInbox`: select ids from the sorted set newest-first, bulk-fetch
the records, silently skipping ids whose record no longer exists. -/
def GetInbox (st : RedisState) (now : Nat) (d l : Str) (limit : Nat)
    (before : Int) : List Message :=
  let ids := (zrevSelect (st.zsets (inboxKey d l)) before limit).map Prod.fst
  ids.filterMap (liveMsg st now)

/-- `Store.GetInbox` with `before = 0`: the exclusive-bound branch is not
taken, so the range is `(-inf, +inf)`. -/
def GetInboxNoBound (st : RedisState) (now : Nat) (d l : Str) (limit : Nat) :
    List Message :=
  let ids :=
    ((st.zsets (inboxKey d l)).insertionSort (fun a b => b.2 ≤ a.2)).take limit
  (ids.map Prod.fst).filterMap (liveMsg st now)

/-! ## Recipient identification (`internal/imapworker`, `extractRecipient`) -/

/-- `mail.Header.Get` modelled as association-list lookup on canonical header
names (the worker only queries canonical names); a missing header reads as
the empty string. -/
def headerGet (hs : List (Str × Str)) (k : Str) : Str :=
  match hs.lookup k with
  | some v => v
  | none => []

/-- `Worker.extractEmailFromString`: trim; when the value contains both `<`
and `>` with the first `<` before the first `>`, return the trimmed text
between them; otherwise return the trimmed value unchanged. -/
def extractEmailFromString (s : Str) : Str :=
  let t := trimStr s
  if t.contains '<' && t.contains '>' then
    let start := idxOf '<' t
    let stop := idxOf '>' t
    if start < stop then trimStr ((t.drop (start + 1)).take (stop - start - 1))
    else t
  else t

/-- `Worker.isValidDomainEmail`: exactly one `@`, and the lower-cased trimmed
domain part is in the merged allow-list. -/
def isValidDomainEmail (allowed : List Str) (email : Str) : Bool :=
  match splitOnChar '@' email with
  | [_, dpart] => allowed.contains (toLowerStr (trimStr dpart))
  | _ => false

/-- `Worker.normalizeEmail`. -/
def normalizeEmail (email : Str) : Str := toLowerStr (trimStr email)

/-- The priority list `sysHeaders` of `extractRecipient`. -/
def sysHeadersList : List Str :=
  ["X-Forwarded-To".toList, "Envelope-To".toList, "X-Envelope-To".toList,
   "X-Original-To".toList, "Delivered-To".toList, "To".toList]

/-- The header-scanning loop of `extractRecipient`, parameterized by the
candidate-extraction function so the source behaviour and the spec's wording
can be compared: for each key in order, when the header is present apply the
extraction; return the normalized email on the first extraction that is
non-empty and has an allow-listed domain. -/
def scanSysHeaders (extract : Str → Str) (allowed : List Str)
    (hs : List (Str × Str)) : List Str → Str
  | [] => []
  | k :: ks =>
    if headerGet hs k ≠ [] then
      if extract (headerGet hs k) ≠ []
          && isValidDomainEmail allowed (extract (headerGet hs k))
      then normalizeEmail (extract (headerGet hs k))
      else scanSysHeaders extract allowed hs ks
    else scanSysHeaders extract allowed hs ks

/-- `Worker.extractRecipient`: scan the priority headers with
`extractEmailFromString`; on no hit, fall back to the first parsed `To`
address with an allow-listed domain; otherwise return `""`. -/
def extractRecipient (allowed : List Str) (hs : List (Str × Str))
    (toAddrs : List Str) : Str :=
  let fromSys := scanSysHeaders extractEmailFromString allowed hs sysHeadersList
  if fromSys ≠ [] then fromSys
  else
    match toAddrs.find? (fun a => isValidDomainEmail allowed a) with
    | some a => normalizeEmail a
    | none => []

/-- The candidate extraction exactly as the claim words it: "the substring
between `<` and `>` if both are present and the trimmed string otherwise". -/
def claimExtractEmail (s : Str) : Str :=
  if s.contains '<' && s.contains '>' then
    (s.drop (idxOf '<' s + 1)).take (idxOf '>' s - idxOf '<' s - 1)
  else trimStr s

/-- Recipient identification as the claim words it: the same prioritized scan
and `To` fallback, but with the claim's extraction rule. -/
def claimExtractRecipient (allowed : List Str) (hs : List (Str × Str))
    (toAddrs : List Str) : Str :=
  let fromSys := scanSysHeaders claimExtractEmail allowed hs sysHeadersList
  if fromSys ≠ [] then fromSys
  else
    match toAddrs.find? (fun a => isValidDomainEmail allowed a) with
    | some a => normalizeEmail a
    | none => []

/-! ## Ingestion (`internal/imapworker`, `ingestMessage` / `processFolder`) -/

/-- One fetched IMAP message, with the MIME library's outputs carried as
fields: `rawSize` is `len(bodyBytes)`, `headers`/`toAddrs` feed
`extractRecipient`, the remaining fields are the already-resolved values
`ingestMessage` puts into the record (`subject`, `date`, bodies, the
generated ULID). -/
structure FetchedMsg where
  uid : Nat
  rawSize : Nat
  headers : List (Str × Str)
  toAddrs : List Str
  fromAddr : Str
  subject : Str
  date : Int
  text : Str
  html : Str
  freshId : Str
deriving Repr

/-- `Worker.ingestMessage`: skip (no write, `nil` error) when the raw size
exceeds `max-email-bytes`, when no recipient is identified, or when the
recipient does not split into exactly two parts around `@`; otherwise build
the record and `SaveMessage` it. -/
def ingestMessage (maxBytes : Nat) (allowed : List Str) (ttl now : Nat)
    (folder : Str) (fm : FetchedMsg) (pipeOk pubOk : Bool) (st : RedisState) :
    RedisState × List (Str × Str) × Except Unit Unit :=
  if maxBytes < fm.rawSize then (st, [], .ok ())
  else if extractRecipient allowed fm.headers fm.toAddrs = [] then (st, [], .ok ())
  else
    match splitOnChar '@' (extractRecipient allowed fm.headers fm.toAddrs) with
    | [lcl, dom] =>
      SaveMessage ttl now
        { id := fm.freshId, domain := dom, localPart := lcl,
          originalTo := extractRecipient allowed fm.headers fm.toAddrs,
          fromAddr := fm.fromAddr, subject := fm.subject, date := fm.date,
          text := fm.text, html := fm.html, imapUid := fm.uid,
          imapFolder := folder }
        pipeOk pubOk st
    | _ => (st, [], .ok ())

/-- The body of `processFolder`'s message loop: first raise the running
`newMaxUID`, then skip if the dedup marker exists, else ingest (a per-message
error is logged and the loop continues). -/
def processOne (maxBytes : Nat) (allowed : List Str) (ttl now : Nat)
    (folder : Str) (pipeOk pubOk : Bool)
    (acc : RedisState × List (Str × Str) × Nat) (fm : FetchedMsg) :
    RedisState × List (Str × Str) × Nat :=
  let maxU2 := if acc.2.2 < fm.uid then fm.uid else acc.2.2
  if IsUIDProcessed acc.1 now folder fm.uid then (acc.1, acc.2.1, maxU2)
  else
    let r := ingestMessage maxBytes allowed ttl now folder fm pipeOk pubOk acc.1
    (r.1, acc.2.1 ++ r.2.1, maxU2)

/-- `Worker.processFolder`: read the per-user-per-folder high-water mark
(propagating a read error as `none`), keep the search results with UID
strictly above it, return unchanged when none remain, else run the message
loop and overwrite the mark only when the observed maximum exceeds the old
value.  `searchResults` are the UID-search hits; the fetch returns exactly
the requested messages. -/
def processFolder (maxBytes : Nat) (allowed : List Str) (ttl now : Nat)
    (user folder : Str) (searchResults : List FetchedMsg)
    (pipeOk pubOk : Bool) (st : RedisState) :
    Option (RedisState × List (Str × Str)) :=
  let uidKey := user ++ ':' :: folder
  match GetFolderLastUID st now uidKey with
  | none => none
  | some lastUID =>
    let uids := searchResults.filter (fun fm => decide (lastUID + 1 ≤ fm.uid))
    if uids.length = 0 then some (st, [])
    else
      let r := uids.foldl (processOne maxBytes allowed ttl now folder pipeOk pubOk)
        (st, [], lastUID)
      let st3 := if lastUID < r.2.2 then SetFolderLastUID r.1 uidKey r.2.2 else r.1
      some (st3, r.2.1)

/-! ## HTTP API (`internal/api`) -/

/-- An HTTP outcome: a JSON body or an error status. -/
inductive HttpResp (α : Type)
  | ok (body : α)
  | httpError (status : Nat)
deriving DecidableEq, Repr

/-- `Handler.isValidDomain`: the static allow-list first, then the dynamic
domains read from `config:domains`. -/
def isValidDomain (allowed dynDomains : List Str) (d : Str) : Bool :=
  allowed.contains d || dynDomains.contains d

/-- `Handler.respondWithAddress`. -/
def respondWithAddress (ttl now : Nat) (d l : Str) : Address :=
  { email := l ++ '@' :: d, localPart := l, domain := d, expiresAt := now + ttl }

/-- `Handler.createCustomAddress` after the rate-limit gate: domain check,
local validation, unconditional reservation upsert, address response. -/
def createCustomAddressOp (allowed dynDomains : List Str) (ttl now : Nat)
    (d rawLocal : Str) (st : RedisState) : HttpResp (Address × RedisState) :=
  if isValidDomain allowed dynDomains d = false then .httpError 400
  else
    match validateCustomLocal rawLocal with
    | .error e => .httpError e
    | .ok l => .ok (respondWithAddress ttl now d l, EnsureAddress ttl now d l st)

/-- `Handler.getInbox` after the rate-limit gate (`rateOk`): the limit and
before parameters are computed (never rejected) and the store is queried. -/
def getInboxHandler (st : RedisState) (now : Nat) (d l : Str)
    (limitQ beforeQ : Str) (rateOk : Bool) : HttpResp (List Message) :=
  if rateOk = false then .httpError 429
  else .ok (GetInbox st now d l (getInboxLimit limitQ) (getInboxBefore beforeQ))

/-- The route table registered by `Handler.Router` (chi patterns under the
`/api` prefix), in registration order. -/
def apiRoutes : List (Str × Str) :=
  [("GET".toList, "/api/healthz".toList),
   ("GET".toList, "/api/readyz".toList),
   ("GET".toList, "/api/status".toList),
   ("GET".toList, "/api/domains".toList),
   ("POST".toList, "/api/address/random".toList),
   ("POST".toList, "/api/address/custom".toList),
   ("GET".toList, "/api/inbox/{domain}/{local}".toList),
   ("GET".toList, "/api/message/{id}".toList),
   ("POST".toList, "/api/admin/login".toList),
   ("GET".toList, "/api/admin/stats".toList),
   ("GET".toList, "/api/admin/domains".toList),
   ("POST".toList, "/api/admin/domains".toList),
   ("DELETE".toList, "/api/admin/domains/{domain}".toList),
   ("GET".toList, "/api/admin/config".toList),
   ("GET".toList, "/api/admin/settings".toList),
   ("POST".toList, "/api/admin/settings".toList),
   ("GET".toList, "/api/admin/addresses".toList),
   ("GET".toList, "/api/admin/messages".toList),
   ("DELETE".toList, "/api/admin/messages/{id}".toList),
   ("GET".toList, "/api/admin/health".toList)]

/-- chi pattern-segment matching: `{param}` matches any non-empty segment,
anything else matches literally. -/
def segMatch (pat seg : Str) : Bool :=
  match pat with
  | '{' :: _ => seg ≠ []
  | _ => pat = seg

/-- Segment-wise route matching (same number of segments, each matching). -/
def routeMatch : List Str → List Str → Bool
  | [], [] => true
  | p :: ps, s :: ss => segMatch p s && routeMatch ps ss
  | _, _ => false

/-- Router dispatch: the pattern of the first registered route whose method
and path match, `none` when no route matches (chi's 404). -/
def routeFor (method path : Str) : Option Str :=
  (apiRoutes.find? (fun r =>
    r.1 = method && routeMatch (splitOnChar '/' r.2) (splitOnChar '/' path))).map
    Prod.snd

/-! ## Helper lemmas -/

theorem matchesLocalPattern_length {l : Str} (h : matchesLocalPattern l = true) :
    3 ≤ l.length ∧ l.length ≤ 31 := by
  cases l with
  | nil => simp [matchesLocalPattern] at h
  | cons c rest =>
    simp only [matchesLocalPattern, Bool.and_eq_true, decide_eq_true_eq] at h
    simp only [List.length_cons]
    omega

theorem setKey_kv_ne (st : RedisState) (k k2 : Str) (v : RVal) (e : Option Nat)
    (h : k2 ≠ k) : (setKey st k v e).kv k2 = st.kv k2 := by
  simp [setKey, h]

theorem setKey_kv_same (st : RedisState) (k : Str) (v : RVal) (e : Option Nat) :
    (setKey st k v e).kv k = some (v, e) := by
  simp [setKey]

theorem setKey_zsets (st : RedisState) (k : Str) (v : RVal) (e : Option Nat) :
    (setKey st k v e).zsets = st.zsets := rfl

theorem zadd_kv (st : RedisState) (k member : Str) (score : Int) :
    (zadd st k member score).kv = st.kv := rfl

theorem setKey_setKey_same (st : RedisState) (k : Str) (v1 v2 : RVal)
    (e1 e2 : Option Nat) :
    setKey (setKey st k v1 e1) k v2 e2 = setKey st k v2 e2 := by
  ext k2
  · simp only [setKey]
    by_cases h : k2 = k <;> simp [h]
  · rfl

theorem msgKey_headElem (id : Str) : (msgKey id)[0]? = some 'm' := rfl

theorem lastUidKey_headElem (uf : Str) : (lastUidKey uf)[0]? = some 'i' := rfl

theorem uidMarkKey_elem5 (f : Str) (u : Nat) : (uidMarkKey f u)[5]? = some 'u' := rfl

theorem lastUidKey_elem5 (uf : Str) : (lastUidKey uf)[5]? = some 'l' := rfl

theorem msgKey_ne_lastUidKey (id uf : Str) : msgKey id ≠ lastUidKey uf := by
  intro h
  have h0 : (msgKey id)[0]? = (lastUidKey uf)[0]? := by rw [h]
  rw [msgKey_headElem, lastUidKey_headElem] at h0
  exact absurd h0 (by decide)

theorem uidMarkKey_ne_lastUidKey (f : Str) (u : Nat) (uf : Str) :
    uidMarkKey f u ≠ lastUidKey uf := by
  intro h
  have h5 : (uidMarkKey f u)[5]? = (lastUidKey uf)[5]? := by rw [h]
  rw [uidMarkKey_elem5, lastUidKey_elem5] at h5
  exact absurd h5 (by decide)

theorem msgKey_ne_uidMarkKey (id f : Str) (u : Nat) : msgKey id ≠ uidMarkKey f u := by
  intro h
  have h0 : (msgKey id)[0]? = (uidMarkKey f u)[0]? := by rw [h]
  rw [msgKey_headElem] at h0
  have h1 : (uidMarkKey f u)[0]? = some 'i' := rfl
  rw [h1] at h0
  exact absurd h0 (by decide)

/-- No write of `SaveMessage` touches the high-water key. -/
theorem SaveMessage_kv_lastUid (ttl now : Nat) (msg : Message)
    (pipeOk pubOk : Bool) (st : RedisState) (uf : Str) :
    (SaveMessage ttl now msg pipeOk pubOk st).1.kv (lastUidKey uf)
      = st.kv (lastUidKey uf) := by
  cases pipeOk with
  | false => rfl
  | true =>
    have hne : ¬((true : Bool) = false) := by simp
    simp only [SaveMessage, if_neg hne]
    split
    · rw [setKey_kv_ne _ _ _ _ _ (fun h => uidMarkKey_ne_lastUidKey _ _ _ h.symm),
        zadd_kv, setKey_kv_ne _ _ _ _ _ (fun h => msgKey_ne_lastUidKey _ _ h.symm)]
    · rw [zadd_kv, setKey_kv_ne _ _ _ _ _ (fun h => msgKey_ne_lastUidKey _ _ h.symm)]

/-- No write of `ingestMessage` touches the high-water key. -/
theorem ingestMessage_kv_lastUid (maxBytes : Nat) (allowed : List Str)
    (ttl now : Nat) (folder : Str) (fm : FetchedMsg) (pipeOk pubOk : Bool)
    (st : RedisState) (uf : Str) :
    (ingestMessage maxBytes allowed ttl now folder fm pipeOk pubOk st).1.kv
      (lastUidKey uf) = st.kv (lastUidKey uf) := by
  unfold ingestMessage
  split
  · rfl
  · split
    · rfl
    · split
      · exact SaveMessage_kv_lastUid ..
      · rfl

theorem getLive_setKey_ne (st : RedisState) (now : Nat) (k k2 : Str)
    (v : RVal) (e : Option Nat) (h : k2 ≠ k) :
    getLive (setKey st k v e) now k2 = getLive st now k2 := by
  unfold getLive
  rw [setKey_kv_ne _ _ _ _ _ h]

theorem getLive_setKey_live (st : RedisState) (now : Nat) (k : Str)
    (v : RVal) (e : Nat) (h : now < e) :
    getLive (setKey st k v (some e)) now k = some v := by
  unfold getLive
  rw [setKey_kv_same]
  simp [h]

theorem processOne_fst (maxBytes : Nat) (allowed : List Str) (ttl now : Nat)
    (folder : Str) (pipeOk pubOk : Bool)
    (acc : RedisState × List (Str × Str) × Nat) (fm : FetchedMsg) :
    (processOne maxBytes allowed ttl now folder pipeOk pubOk acc fm).1
      = if IsUIDProcessed acc.1 now folder fm.uid then acc.1
        else (ingestMessage maxBytes allowed ttl now folder fm pipeOk pubOk acc.1).1 := by
  by_cases h : IsUIDProcessed acc.1 now folder fm.uid <;> simp [processOne, h]

theorem processOne_max (maxBytes : Nat) (allowed : List Str) (ttl now : Nat)
    (folder : Str) (pipeOk pubOk : Bool)
    (acc : RedisState × List (Str × Str) × Nat) (fm : FetchedMsg) :
    (processOne maxBytes allowed ttl now folder pipeOk pubOk acc fm).2.2
      = if acc.2.2 < fm.uid then fm.uid else acc.2.2 := by
  by_cases h : IsUIDProcessed acc.1 now folder fm.uid <;> simp [processOne, h]

/-- The message loop's running maximum is the plain fold of `max` over the
fetched UIDs, independent of the store writes. -/
theorem foldl_processOne_max (maxBytes : Nat) (allowed : List Str)
    (ttl now : Nat) (folder : Str) (pipeOk pubOk : Bool) :
    ∀ (l : List FetchedMsg) (acc : RedisState × List (Str × Str) × Nat),
      (l.foldl (processOne maxBytes allowed ttl now folder pipeOk pubOk) acc).2.2
        = l.foldl (fun m2 fm => if m2 < fm.uid then fm.uid else m2) acc.2.2
  | [], _ => rfl
  | fm :: rest, acc => by
    simp only [List.foldl_cons]
    rw [foldl_processOne_max maxBytes allowed ttl now folder pipeOk pubOk rest,
      processOne_max]

/-- The message loop never writes the high-water key. -/
theorem foldl_processOne_kv_lastUid (maxBytes : Nat) (allowed : List Str)
    (ttl now : Nat) (folder : Str) (pipeOk pubOk : Bool) (uf : Str) :
    ∀ (l : List FetchedMsg) (acc : RedisState × List (Str × Str) × Nat),
      (l.foldl (processOne maxBytes allowed ttl now folder pipeOk pubOk) acc).1.kv
          (lastUidKey uf)
        = acc.1.kv (lastUidKey uf)
  | [], _ => rfl
  | fm :: rest, acc => by
    simp only [List.foldl_cons]
    rw [foldl_processOne_kv_lastUid maxBytes allowed ttl now folder pipeOk pubOk uf rest,
      processOne_fst]
    split
    · rfl
    · exact ingestMessage_kv_lastUid ..

theorem le_foldl_uidMax :
    ∀ (l : List FetchedMsg) (m : Nat),
      m ≤ l.foldl (fun m2 fm => if m2 < fm.uid then fm.uid else m2) m
  | [], m => le_refl m
  | fm :: rest, m => by
    simp only [List.foldl_cons]
    refine le_trans ?_ (le_foldl_uidMax rest _)
    split <;> omega

theorem mem_le_foldl_uidMax :
    ∀ (l : List FetchedMsg) (m : Nat) (fm : FetchedMsg), fm ∈ l →
      fm.uid ≤ l.foldl (fun m2 fm2 => if m2 < fm2.uid then fm2.uid else m2) m
  | [], _, _, h => absurd h (List.not_mem_nil _)
  | fm2 :: rest, m, fm, h => by
    simp only [List.foldl_cons]
    rcases List.mem_cons.mp h with heq | hmem
    · subst heq
      refine le_trans ?_ (le_foldl_uidMax rest _)
      split <;> omega
    · exact mem_le_foldl_uidMax rest _ fm hmem

/-! ## Claim theorems -/

/-- **C1.** The claim says `GET /stream/{domain}/{local}` is exposed and
subscribes to `inbox:{domain}:{local}`.  The store does provide the
subscription primitive with that channel, but the router registers no
`/stream` route at all, so the request falls through to a 404: the code
contradicts its own frontend caller (`EventSource` on
`{API_BASE}/stream/{domain}/{local}`) and leaves `Store.Subscribe` without
any caller. -/
theorem c1_stream_route_absent :
    routeFor "GET".toList "/api/stream/catty.my.id/alice".toList = none
  ∧ subscribeChannel "catty.my.id".toList "alice".toList
      = "inbox:catty.my.id:alice".toList := by
  exact ⟨by decide, by decide⟩

/-- **C2 (counterexample).** A list-inbox request with `limit=101` is not
rejected: on an empty store (rate limit passed) the handler answers 200 with
an empty list, having silently used the default limit 50. -/
theorem c2_limit101_not_rejected :
    getInboxHandler emptyState 0 "catty.my.id".toList "alice".toList
        "101".toList [] true = .ok []
  ∧ getInboxLimit "101".toList = 50 := by
  exact ⟨by rfl, rfl⟩

/-- **C2 (amended).** An absent, unparseable, or out-of-range `limit`
parameter (in particular `limit=101`) is silently replaced by the default 50
and the request is served; an in-range value is used as given.  No branch of
the handler rejects a limit value. -/
theorem c2_limit_silently_defaulted (lq : Str) :
    getInboxLimit [] = 50
  ∧ (∀ i : Int, parseGoInt lq = some i → (i < 1 ∨ 100 < i) → getInboxLimit lq = 50)
  ∧ (parseGoInt lq = none → getInboxLimit lq = 50)
  ∧ (∀ i : Int, parseGoInt lq = some i → 1 ≤ i → i ≤ 100 →
      getInboxLimit lq = i.toNat)
  ∧ (∀ (st : RedisState) (now : Nat) (d l bq : Str),
      getInboxHandler st now d l lq bq true
        = .ok (GetInbox st now d l (getInboxLimit lq) (getInboxBefore bq))) := by
  refine ⟨rfl, ?_, ?_, ?_, ?_⟩
  · intro i hp hrange
    by_cases hq : lq = []
    · subst hq; simp [parseGoInt] at hp
    · simp only [getInboxLimit, if_neg hq, hp]
      rw [if_neg]
      simp only [Bool.and_eq_true, decide_eq_true_eq, not_and]
      omega
  · intro hp
    by_cases hq : lq = []
    · simp [getInboxLimit, hq]
    · simp [getInboxLimit, hq, hp]
  · intro i hp h1 h100
    by_cases hq : lq = []
    · subst hq; simp [parseGoInt] at hp
    · simp only [getInboxLimit, if_neg hq, hp]
      rw [if_pos]
      simp only [Bool.and_eq_true, decide_eq_true_eq]
      omega
  · intro st now d l bq
    rfl

/-- **C2 (witness).** -/
theorem c2_limit_witness : getInboxLimit "101".toList = 50 :=
  (c2_limit_silently_defaulted "101".toList).2.1 101 (by decide) (by decide)

/-- **C7.** `createCustomAddress` accepts the lower-cased trimmed local
exactly when it matches `^[a-z0-9][a-z0-9._-]{2,30}$` and is not reserved;
normalized length 2 or 32 is rejected with 400, lengths 3 and 31 are
accepted, a leading `.`, `_` or `-` is rejected with 400, and every reserved
word is rejected with 400. -/
theorem c7_custom_local_validation :
    (∀ raw : Str,
      validateCustomLocal raw = .ok (toLowerStr (trimStr raw)) ↔
        matchesLocalPattern (toLowerStr (trimStr raw)) = true ∧
          toLowerStr (trimStr raw) ∉ reservedWords)
  ∧ (∀ raw : Str, (toLowerStr (trimStr raw)).length = 2 →
      validateCustomLocal raw = .error 400)
  ∧ validateCustomLocal "abc".toList = .ok "abc".toList
  ∧ validateCustomLocal (List.replicate 31 'a') = .ok (List.replicate 31 'a')
  ∧ (∀ raw : Str, (toLowerStr (trimStr raw)).length = 32 →
      validateCustomLocal raw = .error 400)
  ∧ (∀ (raw : Str) (c : Char) (cs : Str), toLowerStr (trimStr raw) = c :: cs →
      (c = '.' ∨ c = '_' ∨ c = '-') → validateCustomLocal raw = .error 400)
  ∧ (∀ w ∈ reservedWords, validateCustomLocal w = .error 400) := by
  have hmem : ∀ x : Str, reservedWords.contains x = true ↔ x ∈ reservedWords :=
    fun _ => List.elem_iff
  refine ⟨?_, ?_, by rfl, by rfl, ?_, ?_, ?_⟩
  · intro raw
    unfold validateCustomLocal
    cases hb : matchesLocalPattern (toLowerStr (trimStr raw)) with
    | false => simp [hb]
    | true =>
      by_cases hr : toLowerStr (trimStr raw) ∈ reservedWords
      · simp [hb, (hmem _).mpr hr, hr]
      · have hc : reservedWords.contains (toLowerStr (trimStr raw)) = false := by
          rw [← Bool.not_eq_true, hmem]
          exact hr
        simp [hb, hc, hr]
  · intro raw hlen
    cases hb : matchesLocalPattern (toLowerStr (trimStr raw)) with
    | true => exact absurd (matchesLocalPattern_length hb) (by omega)
    | false => simp [validateCustomLocal, hb]
  · intro raw hlen
    cases hb : matchesLocalPattern (toLowerStr (trimStr raw)) with
    | true => exact absurd (matchesLocalPattern_length hb) (by omega)
    | false => simp [validateCustomLocal, hb]
  · intro raw c cs hl hc
    have hp : matchesLocalPattern (toLowerStr (trimStr raw)) = false := by
      rw [hl]
      rcases hc with h | h | h <;> subst h <;>
        simp [matchesLocalPattern, isLowerAlnum]
    simp [validateCustomLocal, hp]
  · intro w hw
    fin_cases hw <;> rfl

/-- **C7 (witness).** -/
theorem c7_validation_witness : validateCustomLocal "aa".toList = .error 400 :=
  c7_custom_local_validation.2.1 "aa".toList (by decide)

/-- **C8.** `createCustomAddress` is idempotent up to expiry: a second call
for the same `(domain, local)` at time `t2` produces exactly what a single
call at `t2` would have produced; the only store difference against the first
call's result is the reservation key re-set with expiry `t2 + R`; both calls
agree on email, local and domain, and the second advisory expiry is
`t2 + R`. -/
theorem c8_custom_idempotent (allowed dynDomains : List Str) (ttl t1 t2 : Nat)
    (d raw : Str) (st st1 st2 : RedisState) (a1 a2 : Address)
    (h1 : createCustomAddressOp allowed dynDomains ttl t1 d raw st = .ok (a1, st1))
    (h2 : createCustomAddressOp allowed dynDomains ttl t2 d raw st1 = .ok (a2, st2)) :
    createCustomAddressOp allowed dynDomains ttl t2 d raw st = .ok (a2, st2)
  ∧ a1.email = a2.email ∧ a1.localPart = a2.localPart ∧ a1.domain = a2.domain
  ∧ a2.expiresAt = t2 + ttl
  ∧ st2 = setKey st1 (addrKey d a2.localPart) (RVal.s "1".toList)
      (some (t2 + ttl)) := by
  unfold createCustomAddressOp at h1 h2 ⊢
  cases hd : isValidDomain allowed dynDomains d with
  | false => rw [hd] at h1; simp at h1
  | true =>
    rw [hd] at h1 h2
    simp only [Bool.true_eq_false, if_false] at h1 h2 ⊢
    cases hv : validateCustomLocal raw with
    | error e => rw [hv] at h1; simp at h1
    | ok l =>
      rw [hv] at h1 h2
      have h1' : HttpResp.ok (respondWithAddress ttl t1 d l,
          EnsureAddress ttl t1 d l st) = HttpResp.ok (a1, st1) := h1
      have h2' : HttpResp.ok (respondWithAddress ttl t2 d l,
          EnsureAddress ttl t2 d l st1) = HttpResp.ok (a2, st2) := h2
      injection h1' with hp1
      injection hp1 with ha1 hs1
      injection h2' with hp2
      injection hp2 with ha2 hs2
      subst ha1 ha2 hs1 hs2
      refine ⟨?_, rfl, rfl, rfl, rfl, rfl⟩
      show HttpResp.ok (respondWithAddress ttl t2 d l, EnsureAddress ttl t2 d l st)
        = HttpResp.ok (respondWithAddress ttl t2 d l,
            EnsureAddress ttl t2 d l (EnsureAddress ttl t1 d l st))
      have he : EnsureAddress ttl t2 d l (EnsureAddress ttl t1 d l st)
          = EnsureAddress ttl t2 d l st := by
        unfold EnsureAddress
        exact setKey_setKey_same st (addrKey d l) _ _ _ _
      rw [he]

/-- **C8 (witness).** -/
theorem c8_idempotent_witness :
    (respondWithAddress 86400 0 "catty.my.id".toList "alice.test".toList).email
      = (respondWithAddress 86400 10 "catty.my.id".toList
          "alice.test".toList).email :=
  (c8_custom_idempotent ["catty.my.id".toList] [] 86400 0 10
    "catty.my.id".toList "ALICE.test".toList emptyState
    (EnsureAddress 86400 0 "catty.my.id".toList "alice.test".toList emptyState)
    (EnsureAddress 86400 10 "catty.my.id".toList "alice.test".toList
      (EnsureAddress 86400 0 "catty.my.id".toList "alice.test".toList emptyState))
    (respondWithAddress 86400 0 "catty.my.id".toList "alice.test".toList)
    (respondWithAddress 86400 10 "catty.my.id".toList "alice.test".toList)
    rfl rfl).2.1

/-- **C6.** The per-folder high-water mark `imap:last_uid:{user}:{folder}` is
non-decreasing: a cycle leaves it at some `v2 ≥ lastUID`, and whenever the
stored value changes, the new value is exactly the maximum UID observed among
the cycle's candidate messages and that maximum strictly exceeds the previous
value (`SetFolderLastUID` is called only under `newMaxUID > lastUID`). -/
theorem c6_highwater_monotone (maxBytes : Nat) (allowed : List Str)
    (ttl now : Nat) (user folder : Str) (msgs : List FetchedMsg)
    (pipeOk pubOk : Bool) (st st2 : RedisState) (pubs : List (Str × Str))
    (lastUID : Nat)
    (hlast : GetFolderLastUID st now (user ++ ':' :: folder) = some lastUID)
    (hrun : processFolder maxBytes allowed ttl now user folder msgs pipeOk pubOk st
      = some (st2, pubs)) :
    ∃ v2, GetFolderLastUID st2 now (user ++ ':' :: folder) = some v2
      ∧ lastUID ≤ v2
      ∧ (v2 ≠ lastUID →
          lastUID < v2 ∧
          v2 = (msgs.filter (fun fm => decide (lastUID + 1 ≤ fm.uid))).foldl
                 (fun m2 fm => if m2 < fm.uid then fm.uid else m2) lastUID) := by
  simp only [processFolder, hlast] at hrun
  by_cases hlen :
      (msgs.filter (fun fm => decide (lastUID + 1 ≤ fm.uid))).length = 0
  · rw [if_pos hlen] at hrun
    injection hrun with hr
    injection hr with hst hp
    subst hst
    exact ⟨lastUID, hlast, le_refl _, fun h => absurd rfl h⟩
  · rw [if_neg hlen] at hrun
    have hmax : ((msgs.filter (fun fm => decide (lastUID + 1 ≤ fm.uid))).foldl
          (processOne maxBytes allowed ttl now folder pipeOk pubOk)
          (st, [], lastUID)).2.2
        = (msgs.filter (fun fm => decide (lastUID + 1 ≤ fm.uid))).foldl
            (fun m2 fm => if m2 < fm.uid then fm.uid else m2) lastUID :=
      foldl_processOne_max maxBytes allowed ttl now folder pipeOk pubOk _ _
    have hkv : ((msgs.filter (fun fm => decide (lastUID + 1 ≤ fm.uid))).foldl
          (processOne maxBytes allowed ttl now folder pipeOk pubOk)
          (st, [], lastUID)).1.kv (lastUidKey (user ++ ':' :: folder))
        = st.kv (lastUidKey (user ++ ':' :: folder)) :=
      foldl_processOne_kv_lastUid maxBytes allowed ttl now folder pipeOk pubOk _ _ _
    by_cases hlt : lastUID <
        ((msgs.filter (fun fm => decide (lastUID + 1 ≤ fm.uid))).foldl
          (processOne maxBytes allowed ttl now folder pipeOk pubOk)
          (st, [], lastUID)).2.2
    · rw [if_pos hlt] at hrun
      injection hrun with hr
      injection hr with hst hp
      subst hst
      refine ⟨_, ?_, le_of_lt (hmax ▸ hlt), fun _ => ⟨hmax ▸ hlt, hmax⟩⟩
      simp [GetFolderLastUID, SetFolderLastUID, getLive, setKey_kv_same]
    · rw [if_neg hlt] at hrun
      injection hrun with hr
      injection hr with hst hp
      subst hst
      refine ⟨lastUID, ?_, le_refl _, fun h => absurd rfl h⟩
      unfold GetFolderLastUID getLive at hlast ⊢
      rw [hkv]
      exact hlast

/-- A one-message cycle used by the C6 witness. -/
def c6fm : FetchedMsg :=
  { uid := 42, rawSize := 10, headers := [], toAddrs := [], fromAddr := [],
    subject := [], date := 0, text := [], html := [], freshId := "01X".toList }

/-- The store and notifications left by the C6 witness cycle. -/
def c6res : RedisState × List (Str × Str) :=
  (processFolder 5242880 [] 86400 0 "u".toList "INBOX".toList [c6fm] true true
    emptyState).getD (emptyState, [])

/-- **C6 (witness).** A cycle over one message with UID 42 on an empty store
leaves the high-water mark at some `v2 ≥ 0`, equal to the observed maximum
when it changed. -/
theorem c6_highwater_witness :
    ∃ v2, GetFolderLastUID c6res.1 0 ("u".toList ++ ':' :: "INBOX".toList)
        = some v2
      ∧ 0 ≤ v2
      ∧ (v2 ≠ 0 → 0 < v2 ∧
          v2 = ([c6fm].filter (fun fm => decide (0 + 1 ≤ fm.uid))).foldl
                 (fun m2 fm => if m2 < fm.uid then fm.uid else m2) 0) :=
  c6_highwater_monotone 5242880 [] 86400 0 "u".toList "INBOX".toList [c6fm]
    true true emptyState c6res.1 c6res.2 0 rfl (by rfl)

/-- **C5.** Dedup within retention: a successful `SaveMessage` writes the
marker `imap:uid:{folder}:{uid}` with expiry `t1 + R` inside the same
pipelined transaction as the record, so at any `t2 < t1 + R` — even after the
high-water key has been reset to an arbitrary value `v` — `IsUIDProcessed`
answers true and the message-loop step for the same `(folder, uid)` returns
the store unchanged: no second record is produced. -/
theorem c5_dedup_within_retention (ttl t1 t2 : Nat) (msg : Message)
    (pubOk pipeOk2 pubOk2 : Bool) (st st1 : RedisState)
    (pubs1 : List (Str × Str)) (r1 : Except Unit Unit)
    (hUid : 0 < msg.imapUid) (hFolder : msg.imapFolder ≠ [])
    (hsave : SaveMessage ttl t1 msg true pubOk st = (st1, pubs1, r1))
    (hwin : t2 < t1 + ttl) (uf : Str) (v : Nat)
    (maxBytes : Nat) (allowed : List Str) (fm : FetchedMsg)
    (hfm : fm.uid = msg.imapUid)
    (pubsAcc : List (Str × Str)) (mAcc : Nat) :
    getLive st1 t2 (uidMarkKey msg.imapFolder msg.imapUid)
      = some (RVal.s "1".toList)
  ∧ IsUIDProcessed (SetFolderLastUID st1 uf v) t2 msg.imapFolder msg.imapUid
      = true
  ∧ processOne maxBytes allowed ttl t2 msg.imapFolder pipeOk2 pubOk2
      (SetFolderLastUID st1 uf v, pubsAcc, mAcc) fm
      = (SetFolderLastUID st1 uf v, pubsAcc,
         if mAcc < fm.uid then fm.uid else mAcc) := by
  have hcond : (decide (0 < msg.imapUid) && !msg.imapFolder.isEmpty) = true := by
    cases hf : msg.imapFolder with
    | nil => exact absurd hf hFolder
    | cons a as => simp [hUid]
  have hS : (SaveMessage ttl t1 msg true pubOk st).1
      = setKey (zadd (setKey st (msgKey msg.id) (RVal.m msg) (some (t1 + ttl)))
          (inboxKey msg.domain msg.localPart) msg.id msg.date)
          (uidMarkKey msg.imapFolder msg.imapUid) (RVal.s "1".toList)
          (some (t1 + ttl)) := by
    simp only [SaveMessage, if_neg (show ¬((true : Bool) = false) by simp),
      hcond, if_true]
  rw [hsave] at hS
  have hst1 : st1 = setKey
      (zadd (setKey st (msgKey msg.id) (RVal.m msg) (some (t1 + ttl)))
        (inboxKey msg.domain msg.localPart) msg.id msg.date)
      (uidMarkKey msg.imapFolder msg.imapUid) (RVal.s "1".toList)
      (some (t1 + ttl)) := hS
  have hmark : getLive st1 t2 (uidMarkKey msg.imapFolder msg.imapUid)
      = some (RVal.s "1".toList) := by
    rw [hst1]
    exact getLive_setKey_live _ _ _ _ _ hwin
  have hmark2 : getLive (SetFolderLastUID st1 uf v) t2
      (uidMarkKey msg.imapFolder msg.imapUid) = some (RVal.s "1".toList) := by
    unfold SetFolderLastUID
    rw [getLive_setKey_ne _ _ _ _ _ _ (uidMarkKey_ne_lastUidKey _ _ _)]
    exact hmark
  have hproc : IsUIDProcessed (SetFolderLastUID st1 uf v) t2 msg.imapFolder
      msg.imapUid = true := by
    unfold IsUIDProcessed
    rw [hmark2]
    rfl
  refine ⟨hmark, hproc, ?_⟩
  have hproc2 : IsUIDProcessed (SetFolderLastUID st1 uf v) t2 msg.imapFolder
      fm.uid = true := by rw [hfm]; exact hproc
  simp [processOne, hproc2]

/-- The stored message used by the C5 witness. -/
def c5msg : Message :=
  { id := "01X".toList, domain := "catty.my.id".toList,
    localPart := "alice".toList, originalTo := "alice@catty.my.id".toList,
    fromAddr := "bob@example.com".toList, subject := "hi".toList, date := 1000,
    text := "t".toList, html := [], imapUid := 42,
    imapFolder := "INBOX".toList }

/-- The store left by the C5 witness save. -/
def c5st1 : RedisState := (SaveMessage 86400 0 c5msg true true emptyState).1

/-- A second fetch of the same `(folder, uid)` for the C5 witness. -/
def c5fm : FetchedMsg :=
  { uid := 42, rawSize := 10, headers := [], toAddrs := [], fromAddr := [],
    subject := [], date := 0, text := [], html := [], freshId := "01Y".toList }

/-- **C5 (witness).** After saving UID 42 of INBOX at time 0, at time 100 and
with the high-water key reset to 0, the dedup marker is seen. -/
theorem c5_dedup_witness :
    IsUIDProcessed (SetFolderLastUID c5st1 "u:INBOX".toList 0) 100
      "INBOX".toList 42 = true :=
  (c5_dedup_within_retention 86400 0 100 c5msg true true true emptyState c5st1
    (SaveMessage 86400 0 c5msg true true emptyState).2.1
    (SaveMessage 86400 0 c5msg true true emptyState).2.2
    (by decide) (by decide) rfl (by decide) "u:INBOX".toList 0
    5242880 [] c5fm rfl [] 0).2.1

/-- An oversized fetched message with a perfectly valid recipient, for the C3
counterexample: only the size check causes the skip. -/
def c3fm : FetchedMsg :=
  { uid := 42, rawSize := 100,
    headers := [("X-Forwarded-To".toList, "alice@catty.my.id".toList)],
    toAddrs := ["alice@catty.my.id".toList], fromAddr := "bob@x.com".toList,
    subject := "hi".toList, date := 1000, text := "t".toList, html := [],
    freshId := "01Z".toList }

/-- The store and notifications left by a cycle over `c3fm` with
`max-email-bytes = 99`. -/
def c3res : RedisState × List (Str × Str) :=
  (processFolder 99 ["catty.my.id".toList] 86400 0 "u".toList "INBOX".toList
    [c3fm] true true emptyState).getD (emptyState, [])

/-- **C3 (counterexample).** A 100-byte message against `max-email-bytes = 99`
is skipped, but the dedup marker `imap:uid:INBOX:42` is NOT written —
refuting the claim — while no record is written, the high-water mark still
advances to 42, and nothing is published. -/
theorem c3_no_marker_counterexample :
    (processFolder 99 ["catty.my.id".toList] 86400 0 "u".toList "INBOX".toList
        [c3fm] true true emptyState).isSome = true
  ∧ IsUIDProcessed c3res.1 0 "INBOX".toList 42 = false
  ∧ getLive c3res.1 0 (msgKey "01Z".toList) = none
  ∧ GetFolderLastUID c3res.1 0 ("u".toList ++ ':' :: "INBOX".toList) = some 42
  ∧ c3res.2 = [] := by
  exact ⟨rfl, rfl, rfl, rfl, rfl⟩

/-- **C3 (amended).** For a fetched message whose raw size exceeds
`max-email-bytes`, `ingestMessage` returns with no store write at all — in
particular neither a record nor a dedup marker — and the folder high-water
mark still advances to at least that UID. -/
theorem c3_oversized_skip (maxBytes : Nat) (allowed : List Str) (ttl now : Nat)
    (user folder : Str) (msgs : List FetchedMsg) (pipeOk pubOk : Bool)
    (st st2 : RedisState) (pubs : List (Str × Str)) (fm : FetchedMsg)
    (lastUID : Nat)
    (hbig : maxBytes < fm.rawSize)
    (hmem : fm ∈ msgs)
    (hlast : GetFolderLastUID st now (user ++ ':' :: folder) = some lastUID)
    (huid : lastUID < fm.uid)
    (hrun : processFolder maxBytes allowed ttl now user folder msgs pipeOk pubOk st
      = some (st2, pubs)) :
    (∀ st0 : RedisState,
      ingestMessage maxBytes allowed ttl now folder fm pipeOk pubOk st0
        = (st0, [], .ok ()))
  ∧ ∃ v2, GetFolderLastUID st2 now (user ++ ':' :: folder) = some v2
      ∧ fm.uid ≤ v2 := by
  constructor
  · intro st0
    unfold ingestMessage
    rw [if_pos hbig]
  · simp only [processFolder, hlast] at hrun
    have hmemf : fm ∈ msgs.filter (fun fm2 => decide (lastUID + 1 ≤ fm2.uid)) :=
      List.mem_filter.mpr ⟨hmem, by simpa using huid⟩
    have hlen : ¬(msgs.filter (fun fm2 => decide (lastUID + 1 ≤ fm2.uid))).length
        = 0 := by
      intro h0
      rw [List.length_eq_zero] at h0
      rw [h0] at hmemf
      exact absurd hmemf (List.not_mem_nil _)
    rw [if_neg hlen] at hrun
    have hfold : fm.uid ≤
        ((msgs.filter (fun fm2 => decide (lastUID + 1 ≤ fm2.uid))).foldl
          (processOne maxBytes allowed ttl now folder pipeOk pubOk)
          (st, [], lastUID)).2.2 := by
      rw [foldl_processOne_max]
      exact mem_le_foldl_uidMax _ _ _ hmemf
    have hlt : lastUID <
        ((msgs.filter (fun fm2 => decide (lastUID + 1 ≤ fm2.uid))).foldl
          (processOne maxBytes allowed ttl now folder pipeOk pubOk)
          (st, [], lastUID)).2.2 := lt_of_lt_of_le huid hfold
    rw [if_pos hlt] at hrun
    injection hrun with hr
    injection hr with hst hp
    subst hst
    refine ⟨_, ?_, hfold⟩
    simp [GetFolderLastUID, SetFolderLastUID, getLive, setKey_kv_same]

/-- **C3 (witness).** -/
theorem c3_oversized_witness :
    ∃ v2, GetFolderLastUID c3res.1 0 ("u".toList ++ ':' :: "INBOX".toList)
        = some v2 ∧ c3fm.uid ≤ v2 :=
  (c3_oversized_skip 99 ["catty.my.id".toList] 86400 0 "u".toList
    "INBOX".toList [c3fm] true true emptyState c3res.1 c3res.2 c3fm 0
    (by decide) (by simp) rfl (by decide) (by rfl)).2

theorem getLive_zadd (st : RedisState) (now : Nat) (k member : Str)
    (score : Int) (k2 : Str) :
    getLive (zadd st k member score) now k2 = getLive st now k2 := by
  unfold getLive
  rw [zadd_kv]

/-- What a successful `SaveMessage` pipeline leaves behind: an `ok` result,
the notification exactly when the publish succeeds, the record stored under
`msg:{id}` with expiry `now + ttl`, and the id inserted into the inbox sorted
set with the message's date as score. -/
theorem SaveMessage_true_parts (ttl now : Nat) (msg : Message) (pubOk : Bool)
    (st : RedisState) :
    (SaveMessage ttl now msg true pubOk st).2.2 = .ok ()
  ∧ (SaveMessage ttl now msg true pubOk st).2.1
      = (if pubOk = true then [(inboxKey msg.domain msg.localPart, msg.id)]
         else [])
  ∧ (SaveMessage ttl now msg true pubOk st).1.kv (msgKey msg.id)
      = some (RVal.m msg, some (now + ttl))
  ∧ (SaveMessage ttl now msg true pubOk st).1.zsets
        (inboxKey msg.domain msg.localPart)
      = (msg.id, msg.date) ::
          (st.zsets (inboxKey msg.domain msg.localPart)).filter
            (fun p => decide (p.1 ≠ msg.id)) := by
  by_cases hcond : (decide (0 < msg.imapUid) && !msg.imapFolder.isEmpty) = true
  · have hS : SaveMessage ttl now msg true pubOk st
        = (setKey (zadd (setKey st (msgKey msg.id) (RVal.m msg)
              (some (now + ttl))) (inboxKey msg.domain msg.localPart) msg.id
              msg.date)
            (uidMarkKey msg.imapFolder msg.imapUid) (RVal.s "1".toList)
            (some (now + ttl)),
           (if pubOk = true then [(inboxKey msg.domain msg.localPart, msg.id)]
            else []), .ok ()) := by
      simp only [SaveMessage, if_neg (show ¬((true : Bool) = false) by simp),
        hcond, if_true]
    rw [hS]
    refine ⟨rfl, rfl, ?_, ?_⟩
    · rw [setKey_kv_ne _ _ _ _ _ (msgKey_ne_uidMarkKey _ _ _), zadd_kv,
        setKey_kv_same]
    · rw [setKey_zsets]
      simp [zadd, setKey]
  · have hS : SaveMessage ttl now msg true pubOk st
        = (zadd (setKey st (msgKey msg.id) (RVal.m msg) (some (now + ttl)))
            (inboxKey msg.domain msg.localPart) msg.id msg.date,
           (if pubOk = true then [(inboxKey msg.domain msg.localPart, msg.id)]
            else []), .ok ()) := by
      simp only [SaveMessage, if_neg (show ¬((true : Bool) = false) by simp),
        hcond, if_false, Bool.false_eq_true]
    rw [hS]
    refine ⟨rfl, rfl, ?_, ?_⟩
    · rw [zadd_kv, setKey_kv_same]
    · simp [zadd, setKey]

/-- **C10.** `SaveMessage` publishes the new-message notification only after
the pipelined record/index/dedup write has succeeded: when the pipeline
fails, the error is returned, the store is untouched and nothing is
published; when the pipeline succeeds, the result is success, the record is
stored and readable, and the notification appears exactly when the publish
succeeds; in particular with a failed publish the function still succeeds
and the message is stored and listable with no notification ever emitted. -/
theorem c10_publish_after_write (ttl now : Nat) (msg : Message) (pubOk : Bool)
    (st : RedisState) (httl : 0 < ttl) :
    (SaveMessage ttl now msg false pubOk st = (st, [], .error ()))
  ∧ (∀ (st3 : RedisState) (pubs : List (Str × Str)) (r : Except Unit Unit),
      SaveMessage ttl now msg true pubOk st = (st3, pubs, r) →
        r = .ok ()
        ∧ getLive st3 now (msgKey msg.id) = some (RVal.m msg)
        ∧ pubs = (if pubOk = true
            then [(inboxKey msg.domain msg.localPart, msg.id)] else []))
  ∧ (st.zsets (inboxKey msg.domain msg.localPart) = [] →
      ∀ (st3 : RedisState) (pubs : List (Str × Str)) (r : Except Unit Unit),
        SaveMessage ttl now msg true false st = (st3, pubs, r) →
          pubs = [] ∧ r = .ok ()
          ∧ GetInbox st3 now msg.domain msg.localPart 1 0 = [msg]) := by
  refine ⟨rfl, ?_, ?_⟩
  · intro st3 pubs r h
    have hp := SaveMessage_true_parts ttl now msg pubOk st
    rw [h] at hp
    refine ⟨hp.1, ?_, hp.2.1⟩
    unfold getLive
    rw [hp.2.2.1]
    simp [Nat.lt_add_of_pos_right httl]
  · intro hz st3 pubs r h
    have hp := SaveMessage_true_parts ttl now msg false st
    rw [h] at hp
    refine ⟨hp.2.1, hp.1, ?_⟩
    have hlive : liveMsg st3 now msg.id = some msg := by
      unfold liveMsg getLive
      rw [hp.2.2.1]
      simp [Nat.lt_add_of_pos_right httl]
    have hzs : st3.zsets (inboxKey msg.domain msg.localPart)
        = [(msg.id, msg.date)] := by
      rw [hp.2.2.2, hz]
      rfl
    unfold GetInbox
    rw [hzs]
    have hsel : zrevSelect [(msg.id, msg.date)] 0 1 = [(msg.id, msg.date)] := rfl
    rw [hsel]
    simp [hlive]

/-- **C10 (witness).** -/
theorem c10_publish_witness :
    (SaveMessage 86400 1000 c5msg true false emptyState).2.1 = []
  ∧ (SaveMessage 86400 1000 c5msg true false emptyState).2.2 = .ok ()
  ∧ GetInbox (SaveMessage 86400 1000 c5msg true false emptyState).1 1000
      c5msg.domain c5msg.localPart 1 0 = [c5msg] :=
  (c10_publish_after_write 86400 1000 c5msg false emptyState (by decide)).2.2
    rfl (SaveMessage 86400 1000 c5msg true false emptyState).1
    (SaveMessage 86400 1000 c5msg true false emptyState).2.1
    (SaveMessage 86400 1000 c5msg true false emptyState).2.2 rfl

/-- The selection returned by the modelled `ZREVRANGEBYSCORE` is sorted by
score, non-increasing. -/
theorem zrevSelect_sorted (entries : List (Str × Int)) (before : Int)
    (limit : Nat) :
    (zrevSelect entries before limit).Pairwise (fun p q => q.2 ≤ p.2) := by
  have hs : (entries.insertionSort (fun a b => b.2 ≤ a.2)).Pairwise
      (fun p q => q.2 ≤ p.2) :=
    @List.sorted_insertionSort (Str × Int) (fun a b => b.2 ≤ a.2) _
      ⟨fun a b => le_total b.2 a.2⟩ ⟨fun _ _ _ hab hbc => le_trans hbc hab⟩
      entries
  unfold zrevSelect
  by_cases hb : 0 < before
  · simp only [if_pos hb]
    exact List.Pairwise.sublist (List.take_sublist _ _) (hs.filter _)
  · simp only [if_neg hb]
    exact List.Pairwise.sublist (List.take_sublist _ _) hs

/-- Every selected entry comes from the sorted set. -/
theorem zrevSelect_mem (entries : List (Str × Int)) (before : Int)
    (limit : Nat) (p : Str × Int) (hp : p ∈ zrevSelect entries before limit) :
    p ∈ entries := by
  have hperm := List.perm_insertionSort (fun a b => b.2 ≤ a.2) entries
  unfold zrevSelect at hp
  by_cases hb : 0 < before
  · simp only [if_pos hb] at hp
    exact hperm.mem_iff.mp (List.mem_filter.mp (List.mem_of_mem_take hp)).1
  · simp only [if_neg hb] at hp
    exact hperm.mem_iff.mp (List.mem_of_mem_take hp)

/-- With a positive `before`, every selected entry's score is strictly below
it (the `(`-prefixed exclusive bound). -/
theorem zrevSelect_bound (entries : List (Str × Int)) (before : Int)
    (limit : Nat) (hb : 0 < before) (p : Str × Int)
    (hp : p ∈ zrevSelect entries before limit) : p.2 < before := by
  unfold zrevSelect at hp
  simp only [if_pos hb] at hp
  exact of_decide_eq_true (List.mem_filter.mp (List.mem_of_mem_take hp)).2

/-- **C9.** `GetInbox` returns records ordered non-increasing by their
sorted-set score (their `date`, given the score/date link that `SaveMessage`
establishes); with `before = T > 0` every returned record has `date < T`;
with `before = 0` no upper bound is applied; and ids whose `msg:*` record is
gone are silently dropped — if all selected records are gone, the result is
the empty list rather than an error. -/
theorem c9_getInbox_sorted (st : RedisState) (now : Nat) (d l : Str)
    (limit : Nat) (before : Int)
    (hlink : ∀ (id : Str) (score : Int) (m : Message),
      (id, score) ∈ st.zsets (inboxKey d l) →
      liveMsg st now id = some m → m.date = score) :
    (GetInbox st now d l limit before).Pairwise (fun a b => b.date ≤ a.date)
  ∧ (0 < before → ∀ m ∈ GetInbox st now d l limit before, m.date < before)
  ∧ GetInbox st now d l limit 0 = GetInboxNoBound st now d l limit
  ∧ ((∀ id ∈ (zrevSelect (st.zsets (inboxKey d l)) before limit).map Prod.fst,
        liveMsg st now id = none) →
      GetInbox st now d l limit before = []) := by
  have hGI : GetInbox st now d l limit before
      = (zrevSelect (st.zsets (inboxKey d l)) before limit).filterMap
          (liveMsg st now ∘ Prod.fst) := by
    unfold GetInbox
    exact List.filterMap_map _ _ _
  refine ⟨?_, ?_, ?_, ?_⟩
  · rw [hGI, List.pairwise_filterMap]
    refine (zrevSelect_sorted _ _ _).imp_of_mem ?_
    intro p q hp hq hpq m hm m2 hm2
    rw [Option.mem_def] at hm hm2
    have h1 : m.date = p.2 :=
      hlink p.1 p.2 m (zrevSelect_mem _ _ _ _ hp) hm
    have h2 : m2.date = q.2 :=
      hlink q.1 q.2 m2 (zrevSelect_mem _ _ _ _ hq) hm2
    rw [h1, h2]
    exact hpq
  · intro hb m hm
    rw [hGI] at hm
    obtain ⟨p, hp, hfp⟩ := List.mem_filterMap.mp hm
    have h1 : m.date = p.2 :=
      hlink p.1 p.2 m (zrevSelect_mem _ _ _ _ hp) hfp
    rw [h1]
    exact zrevSelect_bound _ _ _ hb p hp
  · rfl
  · intro hall
    unfold GetInbox
    exact List.filterMap_eq_nil_iff.mpr hall

/-- **C9 (witness).** -/
theorem c9_sorted_witness :
    (GetInbox emptyState 0 "catty.my.id".toList "alice".toList 50 0).Pairwise
      (fun a b => b.date ≤ a.date) :=
  (c9_getInbox_sorted emptyState 0 "catty.my.id".toList "alice".toList 50 0
    (fun _ _ _ hmem _ => absurd hmem (List.not_mem_nil _))).1

/-- The sequential header-scanning loop is a first-match over the priority
list: it returns the normalized extraction of the first key whose header is
present and whose extraction is a non-empty email with an allow-listed
domain, and the empty string when no key qualifies. -/
theorem scanSysHeaders_eq_find (extract : Str → Str) (allowed : List Str)
    (hs : List (Str × Str)) :
    ∀ L : List Str,
      scanSysHeaders extract allowed hs L
        = match L.find? (fun k =>
            headerGet hs k ≠ [] &&
            (extract (headerGet hs k) ≠ [] &&
             isValidDomainEmail allowed (extract (headerGet hs k)))) with
          | some k => normalizeEmail (extract (headerGet hs k))
          | none => []
  | [] => rfl
  | k :: ks => by
    unfold scanSysHeaders
    by_cases hv : headerGet hs k = []
    · rw [if_neg (fun h => h hv), List.find?_cons_of_neg _ (by simp [hv])]
      exact scanSysHeaders_eq_find extract allowed hs ks
    · rw [if_pos hv]
      by_cases hok : (decide (extract (headerGet hs k) ≠ [])
          && isValidDomainEmail allowed (extract (headerGet hs k))) = true
      · rw [if_pos hok, List.find?_cons_of_pos _ (by
          simp only [Bool.and_eq_true, decide_eq_true_eq] at hok
          simp [hv, hok.1, hok.2])]
      · rw [if_neg hok, List.find?_cons_of_neg _ (by
          simp only [Bool.not_eq_true] at hok
          simp only [Bool.and_eq_true, decide_eq_true_eq, ne_eq, not_and]
          intro _ hne
          rw [decide_eq_true (show extract (headerGet hs k) ≠ [] from hne),
            Bool.true_and] at hok
          simp [hok])]
        exact scanSysHeaders_eq_find extract allowed hs ks

/-- The C4 counterexample header set: the first `>` precedes the first `<`. -/
def cexHeaders : List (Str × Str) :=
  [("X-Forwarded-To".toList, "ignore> <alice@catty.my.id".toList)]

/-- The C4 counterexample allow-list. -/
def cexAllowed : List Str := ["catty.my.id".toList]

/-- **C4 (counterexample).** On the header value
`"ignore> <alice@catty.my.id"`, both `<` and `>` are present, so the claim's
rule takes the substring between them (which is empty here, the `>` coming
first) and finds no recipient; the code additionally requires the first `<`
to precede the first `>` and otherwise falls back to the whole trimmed
string, accepting the entire value as the recipient. -/
theorem c4_bracket_counterexample :
    extractRecipient cexAllowed cexHeaders []
      = "ignore> <alice@catty.my.id".toList
  ∧ claimExtractRecipient cexAllowed cexHeaders [] = [] := by
  exact ⟨by decide, by decide⟩

/-- **C4 (amended).** Recipient identification scans
`X-Forwarded-To, Envelope-To, X-Envelope-To, X-Original-To, Delivered-To, To`
in that priority order, taking for each candidate the trimmed substring
between the first `<` and the first `>` when both are present *and the `<`
comes first*, and the trimmed string otherwise, and returns (lower-cased and
trimmed) the first candidate that is a non-empty email whose lower-cased
domain part is in the merged allow-list; if none matches it returns the first
parsed `To` address with an allow-listed domain; otherwise the message is
discarded with no record written. -/
theorem c4_recipient_scan (allowed : List Str) (hs : List (Str × Str))
    (toAddrs : List Str) :
    (scanSysHeaders extractEmailFromString allowed hs sysHeadersList
        = match sysHeadersList.find? (fun k =>
            headerGet hs k ≠ [] &&
            (extractEmailFromString (headerGet hs k) ≠ [] &&
             isValidDomainEmail allowed (extractEmailFromString (headerGet hs k))))
          with
          | some k => normalizeEmail (extractEmailFromString (headerGet hs k))
          | none => [])
  ∧ (scanSysHeaders extractEmailFromString allowed hs sysHeadersList = [] →
      extractRecipient allowed hs toAddrs
        = match toAddrs.find? (fun a => isValidDomainEmail allowed a) with
          | some a => normalizeEmail a
          | none => [])
  ∧ (∀ (maxBytes ttl now : Nat) (folder : Str) (fm : FetchedMsg)
        (pipeOk pubOk : Bool) (st : RedisState),
      extractRecipient allowed fm.headers fm.toAddrs = [] →
      fm.rawSize ≤ maxBytes →
      ingestMessage maxBytes allowed ttl now folder fm pipeOk pubOk st
        = (st, [], .ok ())) := by
  refine ⟨scanSysHeaders_eq_find extractEmailFromString allowed hs
    sysHeadersList, ?_, ?_⟩
  · intro h
    unfold extractRecipient
    rw [h]
    simp
  · intro maxBytes ttl now folder fm pipeOk pubOk st hno hsize
    unfold ingestMessage
    rw [if_neg (not_lt.mpr hsize), if_pos hno]

/-- A fetched message with no identifiable recipient, for the C4 witness. -/
def c4fm : FetchedMsg :=
  { uid := 7, rawSize := 10, headers := [], toAddrs := [], fromAddr := [],
    subject := [], date := 0, text := [], html := [],
    freshId := "01W".toList }

/-- **C4 (witness).** -/
theorem c4_recipient_witness :
    ingestMessage 5242880 cexAllowed 86400 0 "INBOX".toList c4fm true true
      emptyState = (emptyState, [], .ok ()) :=
  (c4_recipient_scan cexAllowed [] []).2.2 5242880 86400 0 "INBOX".toList c4fm
    true true emptyState (by decide) (by decide)

end CattyMail
